import Mathlib

/-!
# sim-uart: the DPI terminal bridge of `dpi_uart.cpp`

A shallow embedding of the four exported functions of `src/dpi_uart.cpp`
(`uart_init`, `uart_tx_is_data_available`, `uart_tx_get_data`,
`uart_rx_new_data`) together with the three globals they share
(`stream_in`, `stream_out`, `buf`).

The C library and the kernel are not part of the repository.  They are
represented by a small host model that is carried in the same state record:

* the input channel is a list of the outcomes that the successive one-byte
  reads of the stream will deliver (a byte, nothing yet, end of input, or a
  read error); the head of the list is what the next `fread` sees;
* the output channel is the stdio buffer of `stdout` plus the bytes that
  have already left the process;
* the input descriptor has a file-status flag word, may or may not be a
  terminal, and when it is one it has a local-mode word (`c_lflag`);
* every `fcntl` / `tcgetattr` / `tcsetattr` call that is issued is logged,
  whether it succeeds or not.

Things that the C standard leaves to the implementation (signedness of
plain `char`, the width of `tcflag_t`, the numeric values of `O_NONBLOCK`,
`ICANON`, `ECHO`) are collected in the record `Abi`.
-/

namespace SimUart

/-! ## Data model -/

/-- The values a `FILE *` global of the program can take: the null pointer
(static zero initialisation) or one of the two standard streams that
`uart_init` assigns. -/
inductive FILE
  | null
  | stdin
  | stdout
  deriving DecidableEq

/-- Implementation-defined parameters of the C platform. -/
structure Abi where
  /-- Whether plain `char` is a signed type. -/
  char_signed : Bool
  /-- Width in bits of `tcflag_t` (at least the width of `int`). -/
  tcflag_bits : Nat
  /-- Value of the macro `O_NONBLOCK` from the header fcntl.h. -/
  O_NONBLOCK : Nat
  /-- Value of the macro `ICANON` from the header termios.h. -/
  ICANON : Nat
  /-- Value of the macro `ECHO` from the header termios.h. -/
  ECHO : Nat
  deriving DecidableEq

/-- Linux on x86-64 (System V ABI): plain `char` is signed. -/
def linux_x86_64 : Abi :=
  { char_signed := true, tcflag_bits := 32, O_NONBLOCK := 2048, ICANON := 2, ECHO := 8 }

/-- Linux on AArch64: plain `char` is unsigned. -/
def linux_aarch64 : Abi :=
  { char_signed := false, tcflag_bits := 32, O_NONBLOCK := 2048, ICANON := 2, ECHO := 8 }

/-- What one attempt to read a single byte from the input channel delivers. -/
inductive ReadOutcome
  | byte (b : Nat)
  | no_data
  | end_of_input
  | read_error
  deriving DecidableEq

/-- The descriptor-level calls issued by `uart_init`, as they are logged. -/
inductive Call
  | fcntl_getfl
  | fcntl_setfl (arg : Nat)
  | tcgetattr
  | tcsetattr (lflag : Option Nat)
  deriving DecidableEq

/-- Bridge state (the three globals of `dpi_uart.cpp`) together with the
host resources the bridge acts on. -/
structure State where
  /-- Global `FILE *stream_in`. -/
  stream_in : FILE
  /-- Global `FILE *stream_out`. -/
  stream_out : FILE
  /-- Global `char buf`, kept as the stored byte (object representation, 0..255). -/
  buf : Nat
  /-- Outcomes of the successive one-byte reads of standard input. -/
  input : List ReadOutcome
  /-- Whether the input descriptor refers to a terminal. -/
  tty : Bool
  /-- File-status flags of the input descriptor. -/
  fl : Nat
  /-- Local-mode word of the terminal behind the input descriptor. -/
  lflag : Nat
  /-- Log of the descriptor-level calls issued so far. -/
  calls : List Call
  /-- Bytes sitting in the stdio buffer of standard output. -/
  obuf : List Nat
  /-- Bytes that have reached the host side of standard output. -/
  host_out : List Nat
  deriving DecidableEq

/-- State of a process that has just started: the globals are zero
initialised, nothing was written, no call was issued. -/
def fresh (tty : Bool) (fl lflag : Nat) (input : List ReadOutcome) : State :=
  { stream_in := FILE.null, stream_out := FILE.null, buf := 0,
    input := input, tty := tty, fl := fl, lflag := lflag,
    calls := [], obuf := [], host_out := [] }

/-- Everything that was written to the output stream, flushed or not. -/
def output_stream (s : State) : List Nat :=
  s.host_out ++ s.obuf

/-! ## C conversions -/

/-- Value of a plain `char` object whose stored byte is `raw`. -/
def char_val (p : Abi) (raw : Nat) : Int :=
  if p.char_signed && decide (128 ≤ raw) then (raw : Int) - 256 else (raw : Int)

/-- Conversion of an integer to `unsigned char` (what `%c` does with its
`int` argument). -/
def to_uchar (v : Int) : Nat :=
  (v % 256).toNat

/-- Conversion of an integer to plain `char` (argument passing to a `char`
parameter). -/
def to_char (p : Abi) (v : Int) : Int :=
  char_val p (to_uchar v)

/-! ## Host model: the library calls used by the program -/

/-- Call `fcntl(fd, F_GETFL)` on the input descriptor. -/
def fcntl_getfl (s : State) : Nat × State :=
  (s.fl, { s with calls := s.calls ++ [Call.fcntl_getfl] })

/-- Call `fcntl(fd, F_SETFL, arg)` on the input descriptor: the flag word
becomes `arg`.  (The kernel keeps the bits that `F_SETFL` cannot change;
the program passes them back as it read them, so they are the same.) -/
def fcntl_setfl (arg : Nat) (s : State) : State :=
  { s with fl := arg, calls := s.calls ++ [Call.fcntl_setfl arg] }

/-- Call `tcgetattr(fd, &t)`: fills `t` when the descriptor is a terminal,
fails and leaves `t` indeterminate (`none`) otherwise. -/
def tcgetattr (s : State) : Option Nat × State :=
  (if s.tty then some s.lflag else none,
   { s with calls := s.calls ++ [Call.tcgetattr] })

/-- Call `tcsetattr(fd, TCSANOW, &t)`: installs the local modes when the
descriptor is a terminal, fails without effect otherwise.  Only `c_lflag`
is tracked: the other members of `t` go back as `tcgetattr` delivered them. -/
def tcsetattr (t : Option Nat) (s : State) : State :=
  let s1 := { s with calls := s.calls ++ [Call.tcsetattr t] }
  match s.tty, t with
  | true, some l => { s1 with lflag := l }
  | _, _ => s1

/-- The statement `t.c_lflag &= ~(ICANON | ECHO)`: the `int` complement is
converted to `tcflag_t`, which gives `2^w - 1 - (ICANON | ECHO)`. -/
def lflag_clear (p : Abi) (l : Nat) : Nat :=
  l &&& (2 ^ p.tcflag_bits - 1 - (p.ICANON ||| p.ECHO))

/-- What `fread(ptr, 1, 1, stream)` does with one read outcome: the number
of complete items and the new content of the one-byte destination. -/
def fread_one (o : ReadOutcome) (dst : Nat) : Nat × Nat :=
  match o with
  | ReadOutcome.byte b => (1, b)
  | ReadOutcome.no_data => (0, dst)
  | ReadOutcome.end_of_input => (0, dst)
  | ReadOutcome.read_error => (0, dst)

/-- Call `fread(&buf, 1, 1, stream_in)`.  A null stream is undefined
behaviour (`none`); a stream that is not open for reading delivers nothing. -/
def fread_buf (s : State) : Option (Nat × State) :=
  match s.stream_in with
  | FILE.null => none
  | FILE.stdout => some (0, s)
  | FILE.stdin =>
    match s.input with
    | [] => some (0, s)
    | o :: rest =>
      some ((fread_one o s.buf).1, { s with buf := (fread_one o s.buf).2, input := rest })

/-- Call `fprintf(stream_out, "%c", chr)`: the argument is converted to
`unsigned char` and that one byte is written to the stream. -/
def fprintf_c (chr : Int) (s : State) : Option State :=
  match s.stream_out with
  | FILE.null => none
  | FILE.stdin => some s
  | FILE.stdout => some { s with obuf := s.obuf ++ [to_uchar chr] }

/-- Call `fflush(stream_out)`: the buffered bytes go to the host. -/
def fflush (s : State) : State :=
  match s.stream_out with
  | FILE.stdin => s
  | _ => { s with host_out := s.host_out ++ s.obuf, obuf := [] }

/-! ## The program -/

/-- Function `uart_init` (dpi_uart.cpp, lines 12-33).  The descriptor
`fd = fileno(stream_in)` is the input descriptor of the host model; the
return values of the four calls are ignored, as in the source. -/
def uart_init (p : Abi) (s : State) : State :=
  let s1 := { s with stream_in := FILE.stdin }
  let s2 := { s1 with stream_out := FILE.stdout }
  let r := fcntl_getfl s2
  let s3 := fcntl_setfl (r.1 ||| p.O_NONBLOCK) r.2
  if s3.stream_in = FILE.stdin then
    let g := tcgetattr s3
    let t := g.1.map (lflag_clear p)
    tcsetattr t g.2
  else
    s3

/-- Function `uart_tx_is_data_available` (lines 35-39): `ret == 1`. -/
def uart_tx_is_data_available (s : State) : Option (Int × State) :=
  match fread_buf s with
  | none => none
  | some (ret, s1) => some (if ret = 1 then 1 else 0, s1)

/-- Function `uart_tx_get_data` (lines 41-43): `return buf;`, the `char`
converted to `int`. -/
def uart_tx_get_data (p : Abi) (s : State) : Int × State :=
  (char_val p s.buf, s)

/-- Function `uart_rx_new_data` (lines 45-48); `chr` is the value of the
`char` parameter. -/
def uart_rx_new_data (chr : Int) (s : State) : Option State :=
  match fprintf_c chr s with
  | none => none
  | some s1 => some (fflush s1)

/-! ## Drivers used to state the properties -/

/-- Run `n` consecutive polls and collect their results. -/
def polls : Nat → State → Option (List Int × State)
  | 0, s => some ([], s)
  | n + 1, s =>
    match uart_tx_is_data_available s with
    | none => none
    | some (r, s1) =>
      match polls n s1 with
      | none => none
      | some (rs, s2) => some (r :: rs, s2)

/-- Phases of the input path named by the specification. -/
inductive Phase
  | EMPTY
  | STAGED
  deriving DecidableEq

/-- The byte that the next read of the input channel would deliver, if any. -/
def available (s : State) : Option Nat :=
  match s.input with
  | ReadOutcome.byte b :: _ => some b
  | _ => none

/-- The two calls of the input path. -/
inductive Op
  | poll
  | get
  deriving DecidableEq

/-- The input-path machine as the specification draws it, with the valid
byte attached to STAGED: `none` is EMPTY, `some b` is STAGED holding b. -/
def phase_of : Option Nat → Phase
  | none => Phase.EMPTY
  | some _ => Phase.STAGED

/-- Transition of the specification's machine, tracked over the calls:
a poll that finds the byte b on the channel leads to STAGED holding b, a
poll that finds nothing keeps the phase, a consume leads to EMPTY. -/
def spec_step (op : Op) (offered : Option Nat) (g : Option Nat) : Option Nat :=
  match op, offered with
  | Op.poll, some b => some b
  | Op.poll, none => g
  | Op.get, _ => none

/-- One call of the program (result and new state). -/
def code_step (p : Abi) (op : Op) (s : State) : Option (Int × State) :=
  match op with
  | Op.poll => uart_tx_is_data_available s
  | Op.get => some (uart_tx_get_data p s)

/-- One call of the program with the specification's machine run alongside;
the machine sees what the input channel offers, not the content of `buf`. -/
def tracked_step (p : Abi) (op : Op) (g : Option Nat) (s : State) :
    Option (Int × Option Nat × State) :=
  match code_step p op s with
  | none => none
  | some (r, s1) => some (r, spec_step op (available s) g, s1)

/-- A sequence of calls with the specification's machine run alongside. -/
def tracked_run (p : Abi) : List Op → Option Nat → State →
    Option (List Int × Option Nat × State)
  | [], g, s => some ([], g, s)
  | op :: ops, g, s =>
    match tracked_step p op g s with
    | none => none
    | some (r, g1, s1) =>
      match tracked_run p ops g1 s1 with
      | none => none
      | some (rs, g2, s2) => some (r :: rs, g2, s2)

/-- One pass of the echo scenario after initialisation: poll, read the
staged value, hand it back through the `char` parameter of
`uart_rx_new_data`.  Returns the poll result, the value read and the final
state. -/
def echo_once (p : Abi) (s : State) : Option (Int × Int × State) :=
  match uart_tx_is_data_available (uart_init p s) with
  | none => none
  | some (r, s1) =>
    let g := uart_tx_get_data p s1
    match uart_rx_new_data (to_char p g.1) g.2 with
    | none => none
    | some s2 => some (r, g.1, s2)

/-- A terminal session right after `uart_init`: access mode `O_RDWR`, the
usual cooked local modes (octal 105073), and the given input script. -/
def started (p : Abi) (input : List ReadOutcome) : State :=
  uart_init p (fresh true 2 35387 input)

/-! ## Auxiliary facts -/

theorem char_val_of_small (p : Abi) (b : Nat) (h : b < 128) : char_val p b = (b : Int) := by
  unfold char_val
  have : ¬ 128 ≤ b := by omega
  simp [this]

theorem char_val_of_unsigned (p : Abi) (b : Nat) (h : p.char_signed = false) :
    char_val p b = (b : Int) := by
  unfold char_val
  simp [h]

theorem char_val_of_signed_high (p : Abi) (b : Nat) (h : p.char_signed = true)
    (hb : 128 ≤ b) : char_val p b = (b : Int) - 256 := by
  unfold char_val
  simp [h, hb]

theorem char_val_cases (p : Abi) (b : Nat) :
    char_val p b = (b : Int) ∨ (128 ≤ b ∧ char_val p b = (b : Int) - 256) := by
  unfold char_val
  by_cases h : (p.char_signed && decide (128 ≤ b)) = true
  · right
    simp only [h, if_true]
    simp only [Bool.and_eq_true, decide_eq_true_eq] at h
    exact ⟨h.2, trivial⟩
  · left
    simp only [h]
    rfl

theorem char_val_emod (p : Abi) (b : Nat) (h : b < 256) : char_val p b % 256 = (b : Int) := by
  rcases char_val_cases p b with h1 | ⟨_, h1⟩ <;> rw [h1] <;> omega

theorem char_val_range (p : Abi) (b : Nat) (h : b < 256) :
    -128 ≤ char_val p b ∧ char_val p b ≤ 255 := by
  rcases char_val_cases p b with h1 | ⟨h0, h1⟩ <;> rw [h1] <;> omega

theorem to_uchar_char_val (p : Abi) (b : Nat) (h : b < 256) : to_uchar (char_val p b) = b := by
  unfold to_uchar
  rw [char_val_emod p b h]
  exact Int.toNat_ofNat b

theorem to_uchar_of_byte (b : Nat) (h : b < 256) : to_uchar (b : Int) = b := by
  unfold to_uchar
  omega

theorem poll_stdin_byte (s : State) (b : Nat) (rest : List ReadOutcome)
    (hin : s.stream_in = FILE.stdin) (hb : s.input = ReadOutcome.byte b :: rest) :
    uart_tx_is_data_available s = some (1, { s with buf := b, input := rest }) := by
  simp [uart_tx_is_data_available, fread_buf, fread_one, hin, hb]

theorem poll_stdin_idle (s : State) (hin : s.stream_in = FILE.stdin)
    (hav : available s = none) :
    uart_tx_is_data_available s = some (0, { s with input := s.input.tail }) := by
  cases s with
  | mk si so bf inp tty fl lf calls ob ho =>
    simp only at hin
    subst hin
    cases inp with
    | nil => simp [uart_tx_is_data_available, fread_buf]
    | cons o rest =>
      cases o <;> simp [uart_tx_is_data_available, fread_buf, fread_one, available] at hav ⊢

theorem uart_init_eq (p : Abi) (s : State) :
    uart_init p s =
      { s with
        stream_in := FILE.stdin
        stream_out := FILE.stdout
        fl := s.fl ||| p.O_NONBLOCK
        lflag := if s.tty then lflag_clear p s.lflag else s.lflag
        calls := s.calls ++
          [Call.fcntl_getfl, Call.fcntl_setfl (s.fl ||| p.O_NONBLOCK), Call.tcgetattr,
           Call.tcsetattr (if s.tty then some (lflag_clear p s.lflag) else none)] } := by
  cases s with
  | mk si so bf inp tty fl lf calls ob ho =>
    cases tty <;>
      simp [uart_init, fcntl_getfl, fcntl_setfl, tcgetattr, tcsetattr]

theorem testBit_lflag_clear (p : Abi) (l i : Nat) (hl : l < 2 ^ p.tcflag_bits)
    (hm : p.ICANON ||| p.ECHO < 2 ^ p.tcflag_bits) :
    (lflag_clear p l).testBit i = (l.testBit i && !(p.ICANON.testBit i || p.ECHO.testBit i)) := by
  unfold lflag_clear
  have hsub : 2 ^ p.tcflag_bits - 1 - (p.ICANON ||| p.ECHO)
      = 2 ^ p.tcflag_bits - ((p.ICANON ||| p.ECHO) + 1) := by omega
  rw [hsub, Nat.testBit_and, Nat.testBit_two_pow_sub_succ hm, Nat.testBit_or]
  by_cases hi : i < p.tcflag_bits
  · simp [hi]
  · have hle : p.tcflag_bits ≤ i := Nat.le_of_not_lt hi
    have hlt : l < 2 ^ i := Nat.lt_of_lt_of_le hl (Nat.pow_le_pow_right (by decide) hle)
    simp [Nat.testBit_lt_two_pow hlt]

theorem lflag_clear_idem (p : Abi) (l : Nat) : lflag_clear p (lflag_clear p l) = lflag_clear p l := by
  unfold lflag_clear
  rw [Nat.and_assoc, Nat.and_self]

theorem available_idle (s : State) (idle : List ReadOutcome)
    (hidle : ∀ o ∈ idle, ∀ b, o ≠ ReadOutcome.byte b) (hinp : s.input = idle) :
    available s = none := by
  unfold available
  rw [hinp]
  cases idle with
  | nil => rfl
  | cons o rest =>
    cases o with
    | byte b => exact absurd rfl (hidle (ReadOutcome.byte b) (List.mem_cons_self _ _) b)
    | no_data => rfl
    | end_of_input => rfl
    | read_error => rfl

theorem polls_script (n : Nat) : ∀ (bs : List Nat) (idle : List ReadOutcome) (s : State),
    s.stream_in = FILE.stdin → (∀ o ∈ idle, ∀ b, o ≠ ReadOutcome.byte b) →
    s.input = bs.map ReadOutcome.byte ++ idle →
    ∃ s1, polls n s
      = some (List.replicate (min n bs.length) 1 ++ List.replicate (n - bs.length) 0, s1) := by
  induction n with
  | zero =>
    intro bs idle s _ _ _
    exact ⟨s, by simp [polls]⟩
  | succ n ih =>
    intro bs idle s hin hidle hinp
    cases bs with
    | nil =>
      simp only [List.map_nil, List.nil_append] at hinp
      have hp := poll_stdin_idle s hin (available_idle s idle hidle hinp)
      have htail : ∀ o ∈ idle.tail, ∀ b, o ≠ ReadOutcome.byte b :=
        fun o ho => hidle o (List.mem_of_mem_tail ho)
      obtain ⟨s1, h1⟩ := ih [] idle.tail { s with input := s.input.tail } hin htail
        (by simp [hinp])
      refine ⟨s1, ?_⟩
      simp only [polls, hp, h1]
      simp [List.replicate_succ]
    | cons b bs1 =>
      have hp := poll_stdin_byte s b (bs1.map ReadOutcome.byte ++ idle) hin (by simpa using hinp)
      obtain ⟨s1, h1⟩ := ih bs1 idle
        { s with buf := b, input := bs1.map ReadOutcome.byte ++ idle } hin hidle rfl
      refine ⟨s1, ?_⟩
      simp only [polls, hp, h1]
      simp [List.replicate_succ, Nat.succ_min_succ]

theorem available_byte (s : State) (b : Nat) (h : available s = some b) :
    s.input = ReadOutcome.byte b :: s.input.tail := by
  unfold available at h
  split at h
  · next b1 rest heq =>
      simp only [Option.some.injEq] at h
      subst h
      simp [heq]
  · cases h

theorem tracked_poll_byte (p : Abi) (g : Option Nat) (s : State) (b : Nat)
    (hin : s.stream_in = FILE.stdin) (hav : available s = some b) :
    tracked_step p Op.poll g s
      = some (1, some b, { s with buf := b, input := s.input.tail }) := by
  have hp := poll_stdin_byte s b s.input.tail hin (available_byte s b hav)
  simp [tracked_step, code_step, spec_step, hp, hav]

theorem tracked_poll_idle (p : Abi) (g : Option Nat) (s : State)
    (hin : s.stream_in = FILE.stdin) (hav : available s = none) :
    tracked_step p Op.poll g s = some (0, g, { s with input := s.input.tail }) := by
  have hp := poll_stdin_idle s hin hav
  simp [tracked_step, code_step, spec_step, hp, hav]

theorem tracked_get (p : Abi) (g : Option Nat) (s : State) :
    tracked_step p Op.get g s = some (char_val p s.buf, none, s) := by
  simp [tracked_step, code_step, spec_step, uart_tx_get_data]

theorem tracked_run_inv (p : Abi) (ops : List Op) : ∀ (g : Option Nat) (s : State),
    s.stream_in = FILE.stdin → (∀ b, g = some b → s.buf = b) →
    ∃ rs g1 s1, tracked_run p ops g s = some (rs, g1, s1) ∧
      s1.stream_in = FILE.stdin ∧ (∀ b, g1 = some b → s1.buf = b) := by
  induction ops with
  | nil =>
    intro g s hin hinv
    exact ⟨[], g, s, rfl, hin, hinv⟩
  | cons op ops ih =>
    intro g s hin hinv
    cases op with
    | poll =>
      cases hav : available s with
      | none =>
        obtain ⟨rs, g1, s1, h1, h2, h3⟩ :=
          ih g { s with input := s.input.tail } hin hinv
        exact ⟨0 :: rs, g1, s1, by simp [tracked_run, tracked_poll_idle p g s hin hav, h1], h2, h3⟩
      | some b =>
        obtain ⟨rs, g1, s1, h1, h2, h3⟩ :=
          ih (some b) { s with buf := b, input := s.input.tail } hin
            (by intro b1 hb1; simp only [Option.some.injEq] at hb1; exact hb1)
        exact ⟨1 :: rs, g1, s1, by simp [tracked_run, tracked_poll_byte p g s b hin hav, h1], h2, h3⟩
    | get =>
      obtain ⟨rs, g1, s1, h1, h2, h3⟩ := ih none s hin (by intro b hb; cases hb)
      exact ⟨char_val p s.buf :: rs, g1, s1, by simp [tracked_run, tracked_get, h1], h2, h3⟩

theorem rx_stdout (chr : Int) (s : State) (hout : s.stream_out = FILE.stdout) :
    uart_rx_new_data chr s
      = some { s with host_out := s.host_out ++ (s.obuf ++ [to_uchar chr]), obuf := [] } := by
  simp [uart_rx_new_data, fprintf_c, fflush, hout]

theorem to_uchar_to_char (p : Abi) (v : Int) : to_uchar (to_char p v) = to_uchar v := by
  have hlt : to_uchar v < 256 := by
    unfold to_uchar
    omega
  unfold to_char
  exact to_uchar_char_val p (to_uchar v) hlt

/-! ## Staged byte and its conversion to `int` (C1) -/

/-- C1, counterexample.  On x86-64 Linux (signed plain `char`) with the byte
128 next on the input, the poll returns 1 and the immediately following
`uart_tx_get_data` returns -128, not 128; hence the claim "the result is
exactly b for every byte b" is false. -/
theorem c1_sign_extension_counterexample :
    available (started linux_x86_64 [ReadOutcome.byte 128]) = some 128 ∧
    (∃ s1, uart_tx_is_data_available (started linux_x86_64 [ReadOutcome.byte 128]) = some (1, s1) ∧
      (uart_tx_get_data linux_x86_64 s1).1 = -128) ∧
    ¬ (∀ (p : Abi) (b : Nat) (s s1 : State), b < 256 → available s = some b →
        uart_tx_is_data_available s = some (1, s1) → (uart_tx_get_data p s1).1 = (b : Int)) := by
  refine ⟨by decide, ⟨_, poll_stdin_byte _ 128 [] rfl rfl, by decide⟩, ?_⟩
  intro h
  have h1 := h linux_x86_64 128 (started linux_x86_64 [ReadOutcome.byte 128]) _
    (by decide) (by decide) (poll_stdin_byte _ 128 [] rfl rfl)
  revert h1
  decide

/-- C1, amended.  For every byte b in 0..255 that is next on the input of an
initialised bridge, the poll returns 1 and the immediately following
`uart_tx_get_data` returns `buf` converted from plain `char` to `int`: a
value v with -128 <= v <= 255 and v mod 256 = b; v = b when b <= 127 or when
plain `char` is unsigned, and v = b - 256 when b >= 128 and plain `char` is
signed. -/
theorem c1_get_data_after_poll (p : Abi) (b : Nat) (s : State) (rest : List ReadOutcome)
    (hb : b < 256) (hin : s.stream_in = FILE.stdin)
    (hav : s.input = ReadOutcome.byte b :: rest) :
    ∃ s1, uart_tx_is_data_available s = some (1, s1) ∧
      (uart_tx_get_data p s1).1 % 256 = (b : Int) ∧
      -128 ≤ (uart_tx_get_data p s1).1 ∧ (uart_tx_get_data p s1).1 ≤ 255 ∧
      (b < 128 → (uart_tx_get_data p s1).1 = (b : Int)) ∧
      (p.char_signed = false → (uart_tx_get_data p s1).1 = (b : Int)) ∧
      (p.char_signed = true → 128 ≤ b → (uart_tx_get_data p s1).1 = (b : Int) - 256) := by
  refine ⟨_, poll_stdin_byte s b rest hin hav, ?_⟩
  simp only [uart_tx_get_data]
  exact ⟨char_val_emod p b hb, (char_val_range p b hb).1, (char_val_range p b hb).2,
    char_val_of_small p b, char_val_of_unsigned p b, char_val_of_signed_high p b⟩

/-- C1, amended, at the byte 200 on x86-64 Linux. -/
theorem c1_get_data_after_poll_witness :
    ∃ s1, uart_tx_is_data_available (started linux_x86_64 [ReadOutcome.byte 200]) = some (1, s1) ∧
      (uart_tx_get_data linux_x86_64 s1).1 % 256 = ((200 : Nat) : Int) ∧
      -128 ≤ (uart_tx_get_data linux_x86_64 s1).1 ∧ (uart_tx_get_data linux_x86_64 s1).1 ≤ 255 ∧
      (200 < 128 → (uart_tx_get_data linux_x86_64 s1).1 = ((200 : Nat) : Int)) ∧
      (linux_x86_64.char_signed = false → (uart_tx_get_data linux_x86_64 s1).1 = ((200 : Nat) : Int)) ∧
      (linux_x86_64.char_signed = true → 128 ≤ 200 →
        (uart_tx_get_data linux_x86_64 s1).1 = ((200 : Nat) : Int) - 256) :=
  c1_get_data_after_poll linux_x86_64 200 (started linux_x86_64 [ReadOutcome.byte 200]) []
    (by decide) rfl rfl

/-! ## The poll (C3, C7) and the read of the staging buffer (C6) -/

/-- C3.  On an initialised bridge `uart_tx_is_data_available` returns a
result that is 0 or 1; it is 1 exactly when a byte is available on the
input channel, and then that first pending byte is removed from the input
and stored in `buf` (nothing else changes); it is 0 exactly when no byte is
available. -/
theorem c3_poll_result (s : State) (hin : s.stream_in = FILE.stdin) :
    ∃ r s1, uart_tx_is_data_available s = some (r, s1) ∧
      (r = 0 ∨ r = 1) ∧
      (r = 1 ↔ ∃ b, available s = some b) ∧
      (r = 0 ↔ available s = none) ∧
      (∀ b, available s = some b → s1 = { s with buf := b, input := s.input.tail }) := by
  cases hav : available s with
  | none =>
    refine ⟨0, _, poll_stdin_idle s hin hav, Or.inl rfl, ?_, ?_, ?_⟩
    · simp
    · simp
    · intro b hb
      cases hb
  | some b =>
    have hinp : s.input = ReadOutcome.byte b :: s.input.tail := by
      unfold available at hav
      split at hav
      · next b1 rest heq =>
          simp only [Option.some.injEq] at hav
          subst hav
          simp [heq]
      · cases hav
    refine ⟨1, _, poll_stdin_byte s b _ hin hinp, Or.inr rfl, ?_, ?_, ?_⟩
    · simp
    · simp
    · intro b1 hb1
      simp only [Option.some.injEq] at hb1
      subst hb1
      rfl

/-- C3 at a bridge with the bytes 7 and 9 pending. -/
theorem c3_poll_result_witness :
    (started linux_x86_64 [ReadOutcome.byte 7, ReadOutcome.byte 9]).stream_in = FILE.stdin ∧
    ∃ r s1, uart_tx_is_data_available
        (started linux_x86_64 [ReadOutcome.byte 7, ReadOutcome.byte 9]) = some (r, s1) ∧
      (r = 0 ∨ r = 1) ∧
      (r = 1 ↔ ∃ b, available (started linux_x86_64 [ReadOutcome.byte 7, ReadOutcome.byte 9]) = some b) ∧
      (r = 0 ↔ available (started linux_x86_64 [ReadOutcome.byte 7, ReadOutcome.byte 9]) = none) ∧
      (∀ b, available (started linux_x86_64 [ReadOutcome.byte 7, ReadOutcome.byte 9]) = some b →
        s1 = { started linux_x86_64 [ReadOutcome.byte 7, ReadOutcome.byte 9] with
               buf := b,
               input := (started linux_x86_64 [ReadOutcome.byte 7, ReadOutcome.byte 9]).input.tail }) :=
  ⟨rfl, c3_poll_result (started linux_x86_64 [ReadOutcome.byte 7, ReadOutcome.byte 9]) rfl⟩

/-- C6.  `uart_tx_get_data` leaves the whole state as it is (staging buffer,
pending input, output stream, stream handles and everything else), and a
second call right after the first returns the same value. -/
theorem c6_get_data_pure (p : Abi) (s : State) :
    (uart_tx_get_data p s).2 = s ∧
    (uart_tx_get_data p s).2.buf = s.buf ∧
    (uart_tx_get_data p s).2.input = s.input ∧
    (uart_tx_get_data p s).2.obuf = s.obuf ∧
    (uart_tx_get_data p s).2.host_out = s.host_out ∧
    (uart_tx_get_data p s).2.stream_in = s.stream_in ∧
    (uart_tx_get_data p s).2.stream_out = s.stream_out ∧
    (uart_tx_get_data p (uart_tx_get_data p s).2).1 = (uart_tx_get_data p s).1 :=
  ⟨rfl, rfl, rfl, rfl, rfl, rfl, rfl, rfl⟩

/-- C7.  When the next one-byte read delivers nothing (the input script is
exhausted, or its head is "no data", "end of input" or "read error"),
`uart_tx_is_data_available` on an initialised bridge is defined and returns
0, `buf` keeps its content, so `uart_tx_get_data` still returns what it
returned before; and a later poll that finds a byte b2 overwrites `buf`
with b2. -/
theorem c7_empty_read_keeps_buf (p : Abi) (s : State) (hin : s.stream_in = FILE.stdin)
    (hav : s.input = [] ∨ ∃ rest, s.input = ReadOutcome.no_data :: rest ∨
      s.input = ReadOutcome.end_of_input :: rest ∨ s.input = ReadOutcome.read_error :: rest) :
    ∃ s1, uart_tx_is_data_available s = some (0, s1) ∧
      s1.buf = s.buf ∧
      (uart_tx_get_data p s1).1 = (uart_tx_get_data p s).1 ∧
      (∀ b2 rest2, s1.input = ReadOutcome.byte b2 :: rest2 →
        ∃ s2, uart_tx_is_data_available s1 = some (1, s2) ∧ s2.buf = b2) := by
  have hnone : available s = none := by
    unfold available
    rcases hav with h | ⟨rest, h | h | h⟩ <;> simp [h]
  refine ⟨_, poll_stdin_idle s hin hnone, rfl, rfl, ?_⟩
  intro b2 rest2 h2
  exact ⟨_, poll_stdin_byte _ b2 rest2 hin h2, rfl⟩

/-- C7 at a bridge that staged 65 and then meets a read error followed by
the byte 66. -/
theorem c7_empty_read_keeps_buf_witness :
    ∃ s1, uart_tx_is_data_available
        { started linux_x86_64 [ReadOutcome.read_error, ReadOutcome.byte 66] with buf := 65 }
          = some (0, s1) ∧
      s1.buf = 65 ∧
      (uart_tx_get_data linux_x86_64 s1).1 = 65 ∧
      (∀ b2 rest2, s1.input = ReadOutcome.byte b2 :: rest2 →
        ∃ s2, uart_tx_is_data_available s1 = some (1, s2) ∧ s2.buf = b2) :=
  c7_empty_read_keeps_buf linux_x86_64
    { started linux_x86_64 [ReadOutcome.read_error, ReadOutcome.byte 66] with buf := 65 }
    rfl (Or.inr ⟨[ReadOutcome.byte 66], Or.inr (Or.inr rfl)⟩)

/-! ## Initialisation (C2, C10) -/

/-- C2, counterexample.  With the input redirected (not a terminal),
`uart_init` still issues `tcgetattr` and `tcsetattr` on the input
descriptor: the guard `stream_in == stdin` holds after the assignment of
line 17 whatever the descriptor is.  Hence "for a redirected input the
raw-mode step is not attempted at all" is false. -/
theorem c2_redirected_input_counterexample :
    (fresh false 0 0 []).tty = false ∧
    (uart_init linux_x86_64 (fresh false 0 0 [])).calls
      = [Call.fcntl_getfl, Call.fcntl_setfl 2048, Call.tcgetattr, Call.tcsetattr none] ∧
    ¬ (∀ (p : Abi) (s : State), s.tty = false →
        Call.tcgetattr ∉ (uart_init p s).calls ∧
        ∀ t, Call.tcsetattr t ∉ (uart_init p s).calls) := by
  refine ⟨rfl, by decide, ?_⟩
  intro h
  have h1 := (h linux_x86_64 (fresh false 0 0 []) rfl).1
  revert h1
  decide

/-- C2, amended.  `uart_init` always issues the `tcgetattr` / `tcsetattr`
pair on the input descriptor, after the two `fcntl` calls and in this order.
The local modes change only when the input is a terminal (then `ICANON` and
`ECHO` are cleared); when it is not, both calls fail and the word is left as
it was. -/
theorem c2_raw_mode_step (p : Abi) (s : State) :
    (uart_init p s).calls = s.calls ++
      [Call.fcntl_getfl, Call.fcntl_setfl (s.fl ||| p.O_NONBLOCK), Call.tcgetattr,
       Call.tcsetattr (if s.tty then some (lflag_clear p s.lflag) else none)] ∧
    (uart_init p s).lflag = (if s.tty then lflag_clear p s.lflag else s.lflag) ∧
    (uart_init p s).stream_in = FILE.stdin ∧
    (uart_init p s).stream_out = FILE.stdout := by
  rw [uart_init_eq]
  exact ⟨rfl, rfl, rfl, rfl⟩

/-- C10.  When the input is a terminal whose local-mode word fits
`tcflag_t`, after `uart_init` the file-status flags are the old ones with
the bits of `O_NONBLOCK` set and every other bit unchanged, the local modes
are the old ones with the bits of `ICANON` and `ECHO` cleared and every
other bit unchanged, and a second `uart_init` leaves both words as the first
one left them. -/
theorem c10_init_mode_bits (p : Abi) (s : State) (htty : s.tty = true)
    (hl : s.lflag < 2 ^ p.tcflag_bits) (hm : p.ICANON ||| p.ECHO < 2 ^ p.tcflag_bits) :
    (uart_init p s).fl = s.fl ||| p.O_NONBLOCK ∧
    (∀ i, (uart_init p s).fl.testBit i = (s.fl.testBit i || p.O_NONBLOCK.testBit i)) ∧
    (∀ i, (uart_init p s).lflag.testBit i
      = (s.lflag.testBit i && !(p.ICANON.testBit i || p.ECHO.testBit i))) ∧
    (uart_init p (uart_init p s)).fl = (uart_init p s).fl ∧
    (uart_init p (uart_init p s)).lflag = (uart_init p s).lflag := by
  have h1 : (uart_init p s).fl = s.fl ||| p.O_NONBLOCK := by rw [uart_init_eq]
  have h2 : (uart_init p s).lflag = lflag_clear p s.lflag := by
    rw [uart_init_eq]
    simp [htty]
  have h3 : (uart_init p s).tty = true := by
    rw [uart_init_eq]
    exact htty
  have h4 : (uart_init p (uart_init p s)).fl = (uart_init p s).fl ||| p.O_NONBLOCK := by
    rw [uart_init_eq p (uart_init p s)]
  have h5 : (uart_init p (uart_init p s)).lflag = lflag_clear p (uart_init p s).lflag := by
    rw [uart_init_eq p (uart_init p s)]
    simp [h3]
  refine ⟨h1, ?_, ?_, ?_, ?_⟩
  · intro i
    rw [h1, Nat.testBit_or]
  · intro i
    rw [h2]
    exact testBit_lflag_clear p s.lflag i hl hm
  · rw [h4, h1, Nat.or_assoc, Nat.or_self]
  · rw [h5, h2, lflag_clear_idem]

/-- C10 on x86-64 Linux at a terminal in cooked mode (flags `O_RDWR`, local
modes octal 105073). -/
theorem c10_init_mode_bits_witness :
    (uart_init linux_x86_64 (fresh true 2 35387 [])).fl = 2 ||| linux_x86_64.O_NONBLOCK ∧
    (∀ i, (uart_init linux_x86_64 (fresh true 2 35387 [])).fl.testBit i
      = (Nat.testBit 2 i || linux_x86_64.O_NONBLOCK.testBit i)) ∧
    (∀ i, (uart_init linux_x86_64 (fresh true 2 35387 [])).lflag.testBit i
      = (Nat.testBit 35387 i && !(linux_x86_64.ICANON.testBit i || linux_x86_64.ECHO.testBit i))) ∧
    (uart_init linux_x86_64 (uart_init linux_x86_64 (fresh true 2 35387 []))).fl
      = (uart_init linux_x86_64 (fresh true 2 35387 [])).fl ∧
    (uart_init linux_x86_64 (uart_init linux_x86_64 (fresh true 2 35387 []))).lflag
      = (uart_init linux_x86_64 (fresh true 2 35387 [])).lflag :=
  c10_init_mode_bits linux_x86_64 (fresh true 2 35387 []) rfl (by decide) (by decide)

/-! ## Output path (C4) -/

/-- C4.  For every byte b in 0..255 handed over through the `char`
parameter, `uart_rx_new_data` on an initialised bridge appends exactly the
one byte b to what was written to the output stream so far, and on return
the stdio buffer is empty: everything written, b included, has reached the
host.  Nothing else in the state changes. -/
theorem c4_rx_appends_byte (p : Abi) (b : Nat) (s : State) (hb : b < 256)
    (hout : s.stream_out = FILE.stdout) :
    ∃ s1, uart_rx_new_data (to_char p (b : Int)) s = some s1 ∧
      output_stream s1 = output_stream s ++ [b] ∧
      s1.obuf = [] ∧
      s1.host_out = output_stream s ++ [b] ∧
      s1 = { s with host_out := s.host_out ++ (s.obuf ++ [b]), obuf := [] } := by
  have hconv : to_uchar (to_char p (b : Int)) = b := by
    rw [to_uchar_to_char, to_uchar_of_byte b hb]
  refine ⟨_, rx_stdout _ s hout, ?_, rfl, ?_, ?_⟩
  · simp [output_stream, hconv]
  · simp [output_stream, hconv]
  · rw [hconv]

/-- C4 at the byte 255 on x86-64 Linux (the `char` argument is -1), with
"hi" already on the host output. -/
theorem c4_rx_appends_byte_witness :
    ∃ s1, uart_rx_new_data (to_char linux_x86_64 ((255 : Nat) : Int))
        { started linux_x86_64 [] with host_out := [104, 105] } = some s1 ∧
      output_stream s1 = [104, 105, 255] ∧
      s1.obuf = [] ∧
      s1.host_out = [104, 105, 255] := by
  obtain ⟨s1, h1, h2, h3, h4, _⟩ := c4_rx_appends_byte linux_x86_64 255
    { started linux_x86_64 [] with host_out := [104, 105] } (by decide) rfl
  exact ⟨s1, h1, h2, h3, h4⟩

/-! ## Sequences of polls (C5) -/

/-- C5.  If the input of an initialised bridge consists of exactly k
pending bytes followed only by reads that deliver nothing, then of n
consecutive polls the first min(n, k) return 1 and the remaining n - k
return 0, for every n; every poll returns. -/
theorem c5_polls_no_duplicate (bs : List Nat) (idle : List ReadOutcome) (n : Nat) (s : State)
    (hin : s.stream_in = FILE.stdin)
    (hidle : ∀ o ∈ idle, ∀ b, o ≠ ReadOutcome.byte b)
    (hinp : s.input = bs.map ReadOutcome.byte ++ idle) :
    ∃ s1, polls n s
      = some (List.replicate (min n bs.length) 1 ++ List.replicate (n - bs.length) 0, s1) :=
  polls_script n bs idle s hin hidle hinp

/-- C5 with one pending byte followed by end of input, polled four times:
one 1, then three 0. -/
theorem c5_polls_no_duplicate_witness :
    ∃ s1, polls 4 (started linux_x86_64 [ReadOutcome.byte 65, ReadOutcome.end_of_input])
      = some ([1, 0, 0, 0], s1) :=
  c5_polls_no_duplicate [65] [ReadOutcome.end_of_input] 4
    (started linux_x86_64 [ReadOutcome.byte 65, ReadOutcome.end_of_input]) rfl
    (by intro o ho b; simp at ho; subst ho; simp) rfl

/-! ## The input path as a two-phase machine (C8) -/

/-- C8.  Track the phase of the input path over the calls, as the
specification draws it: start in EMPTY, a successful poll leads to STAGED
(holding the byte the channel offered), a consume leads to EMPTY, there is
no other phase.  Then for every sequence of polls and consumes on an
initialised bridge the program runs to the end, and in the phase reached:
the phase is EMPTY or STAGED; if it is STAGED, `buf` holds the valid byte;
a poll that finds a byte b returns 1 and leads to STAGED with b in `buf`; a
poll that finds nothing returns 0 and keeps phase and `buf`; and
`uart_tx_get_data` from STAGED returns the valid byte (as `char` converted
to `int`) and leads back to EMPTY. -/
theorem c8_input_path_machine (p : Abi) (ops : List Op) (s : State)
    (hin : s.stream_in = FILE.stdin) :
    ∃ rs g s1, tracked_run p ops none s = some (rs, g, s1) ∧
      (phase_of g = Phase.EMPTY ∨ phase_of g = Phase.STAGED) ∧
      (∀ b, g = some b → s1.buf = b) ∧
      (∀ b, available s1 = some b →
        ∃ g2 s2, tracked_step p Op.poll g s1 = some (1, g2, s2) ∧
          phase_of g2 = Phase.STAGED ∧ g2 = some b ∧ s2.buf = b) ∧
      (available s1 = none →
        ∃ s2, tracked_step p Op.poll g s1 = some (0, g, s2) ∧ s2.buf = s1.buf) ∧
      (∀ b, g = some b →
        ∃ g2, tracked_step p Op.get g s1 = some (char_val p b, g2, s1) ∧
          phase_of g2 = Phase.EMPTY) := by
  obtain ⟨rs, g, s1, hrun, hin1, hinv⟩ :=
    tracked_run_inv p ops none s hin (by intro b hb; cases hb)
  refine ⟨rs, g, s1, hrun, ?_, hinv, ?_, ?_, ?_⟩
  · cases g with
    | none => exact Or.inl rfl
    | some b => exact Or.inr rfl
  · intro b hav
    exact ⟨some b, _, tracked_poll_byte p g s1 b hin1 hav, rfl, rfl, rfl⟩
  · intro hav
    exact ⟨_, tracked_poll_idle p g s1 hin1 hav, rfl⟩
  · intro b hb
    refine ⟨none, ?_, rfl⟩
    rw [tracked_get, hinv b hb]

/-- C8 on x86-64 Linux with the bytes 65 and 66 pending and the calls
poll, consume, poll: the results are 1, 65, 1, the phase reached is STAGED
and `buf` holds 66. -/
theorem c8_input_path_machine_witness :
    ∃ rs g s1,
      tracked_run linux_x86_64 [Op.poll, Op.get, Op.poll] none
        (started linux_x86_64 [ReadOutcome.byte 65, ReadOutcome.byte 66]) = some (rs, g, s1) ∧
      rs = [1, 65, 1] ∧ g = some 66 ∧ phase_of g = Phase.STAGED ∧ s1.buf = 66 ∧
      (∃ g2, tracked_step linux_x86_64 Op.get g s1 = some (66, g2, s1) ∧
        phase_of g2 = Phase.EMPTY) := by
  obtain ⟨rs, g, s1, hrun, _, hinv, _, _, hget⟩ :=
    c8_input_path_machine linux_x86_64 [Op.poll, Op.get, Op.poll]
      (started linux_x86_64 [ReadOutcome.byte 65, ReadOutcome.byte 66]) rfl
  have hc : tracked_run linux_x86_64 [Op.poll, Op.get, Op.poll] none
      (started linux_x86_64 [ReadOutcome.byte 65, ReadOutcome.byte 66])
      = some ([1, 65, 1], some 66,
          { started linux_x86_64 [ReadOutcome.byte 65, ReadOutcome.byte 66] with
            buf := 66, input := [] }) := by decide
  rw [hc] at hrun
  simp only [Option.some.injEq, Prod.mk.injEq] at hrun
  obtain ⟨hrs, hg, hs⟩ := hrun
  subst hrs hg hs
  exact ⟨_, _, _, hc, rfl, rfl, rfl, rfl, hget 66 rfl⟩

/-! ## End to end (C9) -/

/-- C9, counterexample.  On x86-64 Linux, a fresh process that runs
`uart_init` and then echoes the input byte 128 gets 1 from the poll and
-128 (not 128) from `uart_tx_get_data`; the scenario therefore does not
hold "with any byte b in place of 0x41". -/
theorem c9_end_to_end_counterexample :
    (echo_once linux_x86_64 (fresh true 2 35387 [ReadOutcome.byte 128])).map
        (fun r => (r.1, r.2.1, r.2.2.host_out)) = some (1, -128, [128]) ∧
    ¬ (∀ (p : Abi) (b : Nat), b < 256 →
        ∃ s2, echo_once p (fresh true 2 35387 [ReadOutcome.byte b]) = some (1, (b : Int), s2) ∧
          s2.host_out = [b] ∧ s2.obuf = []) := by
  refine ⟨by decide, ?_⟩
  intro h
  obtain ⟨s2, h1, _⟩ := h linux_x86_64 128 (by decide)
  have hc : (echo_once linux_x86_64 (fresh true 2 35387 [ReadOutcome.byte 128])).map
      (fun r => r.2.1) = some (-128) := by decide
  rw [h1] at hc
  simp only [Option.map, Option.some.injEq] at hc
  omega

/-- C9, amended.  From a fresh process with empty output, after `uart_init`,
with the byte b (0..255) first on the input: the poll returns 1,
`uart_tx_get_data` returns b converted from `char` to `int` (b itself when
b <= 127, which covers 0x41, or when plain `char` is unsigned; congruent to b
modulo 256 in every case), and after `uart_rx_new_data` of that value the
host output is exactly the one byte b with nothing left in the buffer. -/
theorem c9_end_to_end (p : Abi) (b : Nat) (tty : Bool) (fl l : Nat) (rest : List ReadOutcome)
    (hb : b < 256) :
    ∃ s2, echo_once p (fresh tty fl l (ReadOutcome.byte b :: rest))
        = some (1, char_val p b, s2) ∧
      s2.host_out = [b] ∧ s2.obuf = [] ∧
      char_val p b % 256 = (b : Int) ∧
      (b < 128 → char_val p b = (b : Int)) ∧
      (p.char_signed = false → char_val p b = (b : Int)) := by
  have hpoll := poll_stdin_byte (uart_init p (fresh tty fl l (ReadOutcome.byte b :: rest))) b rest
    (by rw [uart_init_eq]) (by rw [uart_init_eq]; rfl)
  have hconv : to_uchar (to_char p (char_val p b)) = b := by
    rw [to_uchar_to_char, to_uchar_char_val p b hb]
  have hrx := rx_stdout (to_char p (char_val p b))
    { uart_init p (fresh tty fl l (ReadOutcome.byte b :: rest)) with buf := b, input := rest }
    (by rw [uart_init_eq])
  have hecho : echo_once p (fresh tty fl l (ReadOutcome.byte b :: rest))
      = some (1, char_val p b,
          { uart_init p (fresh tty fl l (ReadOutcome.byte b :: rest)) with
            buf := b, input := rest,
            host_out := (uart_init p (fresh tty fl l (ReadOutcome.byte b :: rest))).host_out ++
              ((uart_init p (fresh tty fl l (ReadOutcome.byte b :: rest))).obuf ++ [b]),
            obuf := [] }) := by
    rw [hconv] at hrx
    simp only [echo_once, hpoll, uart_tx_get_data, hrx]
  refine ⟨_, hecho, ?_, rfl, char_val_emod p b hb, char_val_of_small p b,
    char_val_of_unsigned p b⟩
  simp [uart_init_eq, fresh]

/-- C9, amended, at the scenario of the specification: the byte 0x41. -/
theorem c9_end_to_end_witness :
    ∃ s2, echo_once linux_x86_64 (fresh true 2 35387 [ReadOutcome.byte 65]) = some (1, 65, s2) ∧
      s2.host_out = [65] ∧ s2.obuf = [] := by
  obtain ⟨s2, h1, h2, h3, _⟩ := c9_end_to_end linux_x86_64 65 true 2 35387 [] (by decide)
  exact ⟨s2, h1, h2, h3⟩

end SimUart
